import Mathlib

/-!
# Verification of the Broker `Manager` (src/src/broker/Manager.h)

Shallow embedding of the broker manager's log-buffer pool, store registry,
query tracker and forwarding bridge.  The repository ships only the class
header `src/src/broker/Manager.h`; the method bodies live outside `src/`,
so every operation below is modelled from the specification's contracts
(§4.1–§4.5 of spec.md), faithful to the spec's words, while the data model
(the `LogBuffer` struct, the registry maps, `ScriptScopeGuard`) follows the
header.  Machine sizes (`size_t`, `int`) are modelled as `Nat`/`Int`;
C++ `double` intervals are modelled as `ℚ`; `unordered_map` is modelled as
an association list; the opaque broker payloads are modelled as `Nat` tags.
-/

namespace BrokerManager

/-- A topic string, used to route outbound messages. -/
abbrev Topic := String

/-- An opaque serialized log record (`broker::vector` in the source);
only its identity matters for the buffering/ordering contracts. -/
abbrev LogMsg := Nat

/-- Association-list lookup, modelling `unordered_map::find`. -/
def assocFind {β : Type} (k : String) : List (String × β) → Option β
  | [] => none
  | (a, b) :: rest => if a = k then some b else assocFind k rest

/-- Association-list erase, modelling `unordered_map::erase(key)`. -/
def assocErase {β : Type} (k : String) : List (String × β) → List (String × β)
  | [] => []
  | (a, b) :: rest => if a = k then assocErase k rest else (a, b) :: assocErase k rest

/-- Split a list into consecutive chunks of at most `n` elements (the last
chunk may be shorter).  Models cutting a buffered topic's message vector
into transport batches of at most the configured batch size. -/
def chunksOf {α : Type} (n : Nat) : List α → List (List α)
  | [] => []
  | x :: xs => (x :: xs.take (n - 1)) :: chunksOf n (xs.drop (n - 1))
  termination_by l => l.length
  decreasing_by simp [Nat.lt_succ_iff]

theorem chunksOf_nil {α : Type} (n : Nat) : chunksOf n ([] : List α) = [] := by
  simp [chunksOf]

/-- Re-joining the chunks returns the original list: batching loses and
reorders nothing. -/
theorem chunksOf_flatten {α : Type} (n : Nat) : ∀ l : List α, (chunksOf n l).flatten = l
  | [] => by simp [chunksOf]
  | x :: xs => by
    have ih := chunksOf_flatten n (xs.drop (n - 1))
    rw [chunksOf]
    simp only [List.flatten_cons, ih]
    simp
  termination_by l => l.length
  decreasing_by simp [Nat.lt_succ_iff]

/-- Every chunk respects the batch-size bound (for a positive bound). -/
theorem chunksOf_length_le {α : Type} (n : Nat) (hn : 0 < n) :
    ∀ (l : List α) (c : List α), c ∈ chunksOf n l → c.length ≤ n
  | [], c => by simp [chunksOf]
  | x :: xs, c => by
    rw [chunksOf]
    intro hc
    rcases List.mem_cons.mp hc with h | h
    · subst h
      simp only [List.length_cons]
      have : (xs.take (n - 1)).length ≤ n - 1 := by
        simp
      omega
    · exact chunksOf_length_le n hn (xs.drop (n - 1)) c h
  termination_by l => l.length
  decreasing_by simp [Nat.lt_succ_iff]

/-- The sum of the chunk sizes is the original length: a flush sends
exactly as many messages as were buffered. -/
theorem chunksOf_sum_length {α : Type} (n : Nat) (l : List α) :
    ((chunksOf n l).map List.length).sum = l.length := by
  have h := congrArg List.length (chunksOf_flatten n l)
  rw [← h, List.length_flatten]

/-- The `LogBuffer` struct of the header (`Manager.h:377-383`): pending
outbound log messages indexed by topic string, plus a running message
count shared by all topics of the buffer's stream. -/
structure LogBuffer where
  msgs : List (Topic × List LogMsg)
  message_count : Nat
deriving Repr, DecidableEq

/-- The empty buffer (cleared state). -/
def LogBuffer.empty : LogBuffer := ⟨[], 0⟩

/-- All pending messages of topic `t`, in append order, across the entries
of a topic-indexed collection (also used for the channel's batch trace). -/
def perTopic (t : Topic) (l : List (Topic × List LogMsg)) : List LogMsg :=
  ((l.filter (fun p => p.1 = t)).map (fun p => p.2)).flatten

theorem perTopic_append (t : Topic) (l₁ l₂ : List (Topic × List LogMsg)) :
    perTopic t (l₁ ++ l₂) = perTopic t l₁ ++ perTopic t l₂ := by
  simp [perTopic]

theorem perTopic_cons (t a : Topic) (ms : List LogMsg)
    (rest : List (Topic × List LogMsg)) :
    perTopic t ((a, ms) :: rest)
      = if a = t then ms ++ perTopic t rest else perTopic t rest := by
  by_cases h : a = t <;> simp [perTopic, List.filter, h]

/-- The topic keys of a topic-indexed collection are distinct — always true
of the header's `unordered_map<string, broker::vector> msgs`. -/
def keysNodup (l : List (Topic × List LogMsg)) : Prop :=
  (l.map Prod.fst).Nodup

theorem perTopic_eq_nil_of_not_mem (t : Topic) :
    ∀ l : List (Topic × List LogMsg), t ∉ l.map Prod.fst → perTopic t l = []
  | [], _ => rfl
  | (a, ms) :: rest, h => by
    have ha : a ≠ t := by
      intro hat
      exact h (by simp [hat])
    have hrest : t ∉ rest.map Prod.fst := by
      intro hm
      exact h (by simp [hm])
    rw [perTopic_cons, if_neg ha]
    exact perTopic_eq_nil_of_not_mem t rest hrest

/-- Append one message to the vector of the given topic, creating the map
entry when the topic is new (models `msgs[topic].emplace_back(...)`). -/
def appendToTopic (t : Topic) (m : LogMsg) : List (Topic × List LogMsg) →
    List (Topic × List LogMsg)
  | [] => [(t, [m])]
  | (a, ms) :: rest =>
    if a = t then (a, ms ++ [m]) :: rest else (a, ms) :: appendToTopic t m rest

theorem keys_appendToTopic (t : Topic) (m : LogMsg) :
    ∀ l : List (Topic × List LogMsg),
      (appendToTopic t m l).map Prod.fst
        = if t ∈ l.map Prod.fst then l.map Prod.fst else l.map Prod.fst ++ [t]
  | [] => by simp [appendToTopic]
  | (a, ms) :: rest => by
    by_cases h : a = t
    · subst h
      simp [appendToTopic]
    · have ih := keys_appendToTopic t m rest
      by_cases hm : t ∈ rest.map Prod.fst
      · simp only [appendToTopic, if_neg h, List.map_cons, ih, if_pos hm]
        rw [if_pos (List.mem_cons_of_mem a hm)]
      · have hta : ¬ t ∈ a :: rest.map Prod.fst := by
          simp only [List.mem_cons]
          rintro (rfl | hmem)
          · exact h rfl
          · exact hm hmem
        simp only [appendToTopic, if_neg h, List.map_cons, ih, if_neg hm]
        rw [if_neg hta]
        simp

theorem keysNodup_appendToTopic (t : Topic) (m : LogMsg)
    (l : List (Topic × List LogMsg)) (hl : keysNodup l) :
    keysNodup (appendToTopic t m l) := by
  unfold keysNodup at *
  rw [keys_appendToTopic]
  by_cases hm : t ∈ l.map Prod.fst
  · rwa [if_pos hm]
  · rw [if_neg hm]
    refine List.Nodup.append hl (List.nodup_singleton t) ?_
    intro x hx hxt
    rw [List.mem_singleton] at hxt
    subst hxt
    exact hm hx

theorem perTopic_appendToTopic_same (t : Topic) (m : LogMsg) :
    ∀ l : List (Topic × List LogMsg), keysNodup l →
      perTopic t (appendToTopic t m l) = perTopic t l ++ [m]
  | [], _ => by simp [appendToTopic, perTopic]
  | (a, ms) :: rest, hnd => by
    by_cases h : a = t
    · subst h
      have hrest : a ∉ rest.map Prod.fst := by
        have := hnd
        unfold keysNodup at this
        simp only [List.map_cons, List.nodup_cons] at this
        exact this.1
      rw [appendToTopic, if_pos rfl, perTopic_cons, if_pos rfl, perTopic_cons,
        if_pos rfl, perTopic_eq_nil_of_not_mem a rest hrest]
      simp
    · have hnd' : keysNodup rest := by
        have := hnd
        unfold keysNodup at this ⊢
        simp only [List.map_cons, List.nodup_cons] at this
        exact this.2
      have ih := perTopic_appendToTopic_same t m rest hnd'
      rw [appendToTopic, if_neg h, perTopic_cons, if_neg h, perTopic_cons, if_neg h, ih]

theorem perTopic_appendToTopic_other (t t' : Topic) (m : LogMsg) (hne : t' ≠ t) :
    ∀ l : List (Topic × List LogMsg),
      perTopic t (appendToTopic t' m l) = perTopic t l
  | [] => by simp [appendToTopic, perTopic, List.filter, hne]
  | (a, ms) :: rest => by
    by_cases h : a = t'
    · subst h
      rw [appendToTopic, if_pos rfl, perTopic_cons, if_neg hne, perTopic_cons, if_neg hne]
    · have ih := perTopic_appendToTopic_other t t' m hne rest
      by_cases hat : a = t
      · rw [appendToTopic, if_neg h, perTopic_cons, if_pos hat, perTopic_cons,
          if_pos hat, ih]
      · rw [appendToTopic, if_neg h, perTopic_cons, if_neg hat, perTopic_cons,
          if_neg hat, ih]

/-- Modelled from the spec: the batch sequence a `LogBuffer::Flush` hands to
the Typed Message Channel (the body of `Manager::LogBuffer::Flush` is not in
`src/`).  Every topic's pending vector is cut into batches of at most
`batch_size` messages and published batch by batch, in append order. -/
def flushOut (batch_size : Nat) (msgs : List (Topic × List LogMsg)) :
    List (Topic × List LogMsg) :=
  msgs.flatMap (fun p => (chunksOf batch_size p.2).map (fun c => (p.1, c)))

/-- Flushing emits, for each topic, exactly the buffered messages of that
topic in their buffered order: no loss, no reordering, no cross-topic merge. -/
theorem perTopic_flushOut (batch_size : Nat) (t : Topic) :
    ∀ msgs : List (Topic × List LogMsg),
      perTopic t (flushOut batch_size msgs) = perTopic t msgs
  | [] => by simp [flushOut, perTopic]
  | (a, ms) :: rest => by
    have ih := perTopic_flushOut batch_size t rest
    by_cases h : a = t
    · subst h
      simp only [flushOut, List.flatMap_cons, perTopic_append] at *
      rw [ih]
      have hhd : perTopic a ((chunksOf batch_size ms).map (fun c => (a, c))) = ms := by
        have : ((chunksOf batch_size ms).map (fun c => (a, c))).filter
            (fun p => p.1 = a) = (chunksOf batch_size ms).map (fun c => (a, c)) := by
          apply List.filter_eq_self.mpr
          intro p hp
          rcases List.mem_map.mp hp with ⟨c, _, rfl⟩
          simp
        rw [perTopic, this, List.map_map]
        simpa [Function.comp] using chunksOf_flatten batch_size ms
      rw [hhd]
      simp [perTopic, List.filter]
    · simp only [flushOut, List.flatMap_cons, perTopic_append] at *
      rw [ih]
      have hhd : perTopic t ((chunksOf batch_size ms).map (fun c => (a, c))) = [] := by
        have : ((chunksOf batch_size ms).map (fun c => (a, c))).filter
            (fun p => p.1 = t) = [] := by
          apply List.filter_eq_nil_iff.mpr
          intro p hp
          rcases List.mem_map.mp hp with ⟨c, _, rfl⟩
          simpa using h
        rw [perTopic, this]
        rfl
      rw [hhd]
      simp [perTopic, List.filter, h]

/-- The role of a registered store: master, or clone with the three
interval parameters of `Manager::MakeClone` (Manager.h:294-297). -/
inductive StoreRole where
  | master
  | clone (resync_interval stale_interval mutation_buffer_interval : ℚ)
deriving Repr, DecidableEq

/-- A store handle (`StoreHandleVal`), identified by its registry name. -/
structure StoreHandle where
  name : String
  role : StoreRole
deriving Repr, DecidableEq

/-- How a tracked store query was resolved: by a matching response, or by
a timeout signal (timeout sweep, store close, shutdown flush). -/
inductive Outcome where
  | response
  | timeout
deriving Repr, DecidableEq

/-- `Manager::query_id` (Manager.h:386): pair of broker request id and the
owning store handle, the handle identified here by its registry name. -/
abbrev QueryKey := Nat × String

/-- One entry of `Manager::pending_queries`: the key plus the query's
individual timeout deadline (carried by the callback in the source). -/
structure PendingQuery where
  key : QueryKey
  expiry : ℚ
deriving Repr, DecidableEq

/-- The manager's state: the header's data members (Manager.h:398-414)
plus two observation traces — `resolved` records every callback invocation
(the spec's query resolutions) and `sent` records every batch handed to
the Typed Message Channel — and a counter of reports made through the
reporting collaborator. -/
structure ManagerState where
  log_buffers : List (String × LogBuffer)
  data_stores : List (String × StoreHandle)
  forwarded_stores : List (String × Nat)
  pending_queries : List PendingQuery
  resolved : List (QueryKey × Outcome)
  sent : List (Topic × List LogMsg)
  reported_errors : Nat
  log_batch_size : Nat
deriving Repr, DecidableEq

/-- The manager's initial state: empty maps, nothing sent or resolved. -/
def initState (batch_size : Nat) : ManagerState :=
  ⟨[], [], [], [], [], [], 0, batch_size⟩

/-- The default log topic of the header's documentation: implicitly
`"bro/log/<stream-name>"` (Manager.h:178, 196). -/
def logTopic (stream : String) : Topic := "bro/log/" ++ stream

/-- The stream's buffer in `log_buffers`, an empty buffer when the stream
has none yet. -/
def getBuffer (s : ManagerState) (stream : String) : LogBuffer :=
  (assocFind stream s.log_buffers).getD LogBuffer.empty

/-- Store a stream's buffer back into `log_buffers`. -/
def setBuffer (stream : String) (b : LogBuffer) :
    List (String × LogBuffer) → List (String × LogBuffer)
  | [] => [(stream, b)]
  | (a, b') :: rest =>
    if a = stream then (a, b) :: rest else (a, b') :: setBuffer stream b rest

/-- Modelled from the spec: `Manager::PublishLogWrite` (Manager.h:205-207,
body not in `src/`).  Appends the serialized log record into the stream's
buffer under the destination topic and increments the buffer's running
count; no immediate send, except that a buffer whose count reaches the
configured batch size is flushed eagerly before the periodic sweep. -/
def publishLogWrite (s : ManagerState) (stream : String) (topic : Topic)
    (m : LogMsg) : ManagerState :=
  let b := getBuffer s stream
  let b' : LogBuffer := ⟨appendToTopic topic m b.msgs, b.message_count + 1⟩
  if s.log_batch_size ≤ b'.message_count then
    { s with
      log_buffers := setBuffer stream LogBuffer.empty s.log_buffers,
      sent := s.sent ++ flushOut s.log_batch_size b'.msgs }
  else
    { s with log_buffers := setBuffer stream b' s.log_buffers }

/-- Modelled from the spec: `Manager::PublishLogCreate` (Manager.h:188-192,
body not in `src/`).  A log-create message is sent immediately over the
channel; it does not go through the log buffers. -/
def publishLogCreate (s : ManagerState) (topic : Topic) (m : LogMsg) :
    ManagerState :=
  { s with sent := s.sent ++ [(topic, [m])] }

/-- Modelled from the spec: `Manager::LogBuffer::Flush` (Manager.h:382, body
not in `src/`).  Publishes every topic's pending messages in batches of at
most `batch_size`, returns the number of messages sent, and leaves the
buffer cleared (both the map and the count). -/
def LogBuffer.Flush (b : LogBuffer) (batch_size : Nat) :
    List (Topic × List LogMsg) × LogBuffer × Nat :=
  (flushOut batch_size b.msgs, LogBuffer.empty, b.message_count)

/-- Modelled from the spec: `Manager::FlushLogBuffers` (Manager.h:328, body
not in `src/`).  Flushes every buffer via `LogBuffer.Flush` and returns the
total number of messages sent. -/
def flushLogBuffers (s : ManagerState) : ManagerState × Nat :=
  ({ s with
      log_buffers := s.log_buffers.map (fun p => (p.1, LogBuffer.empty)),
      sent := s.sent
        ++ (s.log_buffers.map
              (fun p => (LogBuffer.Flush p.2 s.log_batch_size).1)).flatten },
    (s.log_buffers.map (fun p => (LogBuffer.Flush p.2 s.log_batch_size).2.2)).sum)

/-- Modelled from the spec: `Manager::MakeMaster` (Manager.h:273-274, body
not in `src/`).  Fails — reported, no handle, registry unchanged — when the
name already exists; otherwise registers a master-role store. -/
def makeMaster (s : ManagerState) (name : String) :
    ManagerState × Option StoreHandle :=
  match assocFind name s.data_stores with
  | some _ => ({ s with reported_errors := s.reported_errors + 1 }, none)
  | none =>
    let h : StoreHandle := ⟨name, .master⟩
    ({ s with data_stores := s.data_stores ++ [(name, h)] }, some h)

/-- Modelled from the spec: `Manager::MakeClone` (Manager.h:294-297, body
not in `src/`).  Fails on a duplicate name; otherwise registers a
clone-role store carrying the three interval parameters. -/
def makeClone (s : ManagerState) (name : String)
    (resync stale mbuf : ℚ) : ManagerState × Option StoreHandle :=
  match assocFind name s.data_stores with
  | some _ => ({ s with reported_errors := s.reported_errors + 1 }, none)
  | none =>
    let h : StoreHandle := ⟨name, .clone resync stale mbuf⟩
    ({ s with data_stores := s.data_stores ++ [(name, h)] }, some h)

/-- Modelled from the spec: `Manager::LookupStore` (Manager.h:304, body not
in `src/`).  A pure registry lookup with no side effects. -/
def lookupStore (s : ManagerState) (name : String) : Option StoreHandle :=
  assocFind name s.data_stores

/-- Modelled from the spec: `Manager::TrackStoreQuery` (Manager.h:321-322,
body not in `src/`).  Registers exactly one callback per
`(request_id, handle)` key; a duplicate key is reported and rejected
without overwriting the existing entry. -/
def trackStoreQuery (s : ManagerState) (name : String) (rid : Nat)
    (expiry : ℚ) : ManagerState × Bool :=
  if s.pending_queries.any (fun q => decide (q.key = (rid, name))) then
    ({ s with reported_errors := s.reported_errors + 1 }, false)
  else
    ({ s with pending_queries := s.pending_queries ++ [⟨(rid, name), expiry⟩] },
      true)

/-- Modelled from the spec: `Manager::ProcessStoreResponse` (Manager.h:360,
body not in `src/`).  When the key is pending, invokes its callback with
the response and removes the entry; otherwise the response raced a timeout
sweep (or is foreign) and is silently discarded — no state change, no
report. -/
def processStoreResponse (s : ManagerState) (name : String) (rid : Nat) :
    ManagerState :=
  if s.pending_queries.any (fun q => decide (q.key = (rid, name))) then
    { s with
      pending_queries :=
        s.pending_queries.filter (fun q => !decide (q.key = (rid, name))),
      resolved := s.resolved ++ [((rid, name), Outcome.response)] }
  else s

/-- Modelled from the spec: the periodic timeout sweep of the Query
Tracker (§4.4; driven from `Manager::Process`, body not in `src/`).
Every pending query whose deadline has passed is resolved with a timeout
signal and removed. -/
def timeoutSweep (s : ManagerState) (now : ℚ) : ManagerState :=
  { s with
    pending_queries :=
      s.pending_queries.filter (fun q => !decide (q.expiry < now)),
    resolved := s.resolved
      ++ (s.pending_queries.filter (fun q => decide (q.expiry < now))).map
            (fun q => (q.key, Outcome.timeout)) }

/-- Modelled from the spec: `Manager::CloseStore` (Manager.h:314, body not
in `src/`).  Removes the handle, resolves every query pending under it
with a timeout signal, removes any forwarding association, and returns
true; returns false (nothing changes) when no such store exists. -/
def closeStore (s : ManagerState) (name : String) : ManagerState × Bool :=
  match assocFind name s.data_stores with
  | none => (s, false)
  | some _ =>
    ({ s with
        data_stores := assocErase name s.data_stores,
        forwarded_stores := assocErase name s.forwarded_stores,
        pending_queries :=
          s.pending_queries.filter (fun q => !decide (q.key.2 = name)),
        resolved := s.resolved
          ++ (s.pending_queries.filter (fun q => decide (q.key.2 = name))).map
                (fun q => (q.key, Outcome.timeout)) }, true)

/-- Modelled from the spec: `Manager::AddForwardedStore` (Manager.h:306,
body not in `src/`).  Fails when the store name is not registered, or when
a forwarding association for the name already exists (never replaced);
otherwise records the association. -/
def addForwardedStore (s : ManagerState) (name : String) (table : Nat) :
    ManagerState × Bool :=
  match assocFind name s.data_stores with
  | none => ({ s with reported_errors := s.reported_errors + 1 }, false)
  | some _ =>
    match assocFind name s.forwarded_stores with
    | some _ => ({ s with reported_errors := s.reported_errors + 1 }, false)
    | none =>
      ({ s with forwarded_stores := s.forwarded_stores ++ [(name, table)] },
        true)

/-- The manager's externally triggered operations, as one step language. -/
inductive Op where
  | publishLogWrite (stream : String) (topic : Topic) (m : LogMsg)
  | publishLogCreate (topic : Topic) (m : LogMsg)
  | flushLogBuffers
  | makeMaster (name : String)
  | makeClone (name : String) (resync stale mbuf : ℚ)
  | closeStore (name : String)
  | addForwardedStore (name : String) (table : Nat)
  | trackStoreQuery (name : String) (rid : Nat) (expiry : ℚ)
  | processStoreResponse (name : String) (rid : Nat)
  | timeoutSweep (now : ℚ)

/-- One step of the manager. -/
def run (s : ManagerState) : Op → ManagerState
  | .publishLogWrite st t m => publishLogWrite s st t m
  | .publishLogCreate t m => publishLogCreate s t m
  | .flushLogBuffers => (flushLogBuffers s).1
  | .makeMaster n => (makeMaster s n).1
  | .makeClone n r st mb => (makeClone s n r st mb).1
  | .closeStore n => (closeStore s n).1
  | .addForwardedStore n tb => (addForwardedStore s n tb).1
  | .trackStoreQuery n rid e => (trackStoreQuery s n rid e).1
  | .processStoreResponse n rid => processStoreResponse s n rid
  | .timeoutSweep now => timeoutSweep s now

/-- Run a sequence of operations from a state. -/
def runOps (s : ManagerState) (ops : List Op) : ManagerState := ops.foldl run s

/-- The outcome of a read query against a clone. -/
inductive QueryResult where
  | ok
  | staleError
deriving Repr, DecidableEq

/-- Modelled from the spec: the runtime state of a clone-role store created
by `Manager::MakeClone` (Manager.h:294-297; the clone behaviour itself is
not in `src/`).  Carries the three creation parameters, the time at which
the clone lost its master (none while connected), and the mutations
buffered while disconnected. -/
structure CloneState where
  resync_interval : ℚ
  stale_interval : ℚ
  mutation_buffer_interval : ℚ
  disconnected_since : Option ℚ
  buffered_mutations : List Nat
deriving Repr, DecidableEq

/-- A clone as `MakeClone` creates it: connected, nothing buffered. -/
def newClone (resync stale mbuf : ℚ) : CloneState :=
  ⟨resync, stale, mbuf, none, []⟩

/-- The clone loses its master at time `now`. -/
def cloneDisconnect (c : CloneState) (now : ℚ) : CloneState :=
  { c with disconnected_since := some now }

/-- Modelled from the spec: whether the clone treats its local cache as
stale at time `now` — after `stale_interval` seconds of disconnection,
unless `stale_interval` is negative (never stale). -/
def cloneIsStale (c : CloneState) (now : ℚ) : Bool :=
  match c.disconnected_since with
  | none => false
  | some t0 =>
    decide (0 ≤ c.stale_interval) && decide (c.stale_interval ≤ now - t0)

/-- Modelled from the spec: a read query against a stale clone fails with
a staleness error instead of returning possibly-outdated data. -/
def cloneReadQuery (c : CloneState) (now : ℚ) : QueryResult :=
  if cloneIsStale c now then .staleError else .ok

/-- Modelled from the spec: a mutation issued against the clone at time
`now`.  While connected it is forwarded to the master (nothing buffered);
while disconnected it is buffered for up to `mutation_buffer_interval`
seconds, a non-positive interval disabling buffering entirely (the
mutation is dropped). -/
def cloneIssueMutation (c : CloneState) (now : ℚ) (m : Nat) : CloneState :=
  match c.disconnected_since with
  | none => c
  | some t0 =>
    if c.mutation_buffer_interval ≤ 0 then c
    else if now - t0 ≤ c.mutation_buffer_interval then
      { c with buffered_mutations := c.buffered_mutations ++ [m] }
    else c

/-- Modelled from the spec: on reconnection the clone replays its buffered
mutations in original order and clears the buffer. -/
def cloneReconnect (c : CloneState) : CloneState × List Nat :=
  ({ c with disconnected_since := none, buffered_mutations := [] },
    c.buffered_mutations)

/-- `Manager::ScriptScopeGuard` constructor body `++script_scope`
(Manager.h:346), acting on the static counter `script_scope`
(Manager.h:422, a C++ `int`, modelled as `Int`). -/
def scriptScopeGuardCtor (script_scope : Int) : Int := script_scope + 1

/-- `Manager::ScriptScopeGuard` destructor body `--script_scope`
(Manager.h:347). -/
def scriptScopeGuardDtor (script_scope : Int) : Int := script_scope - 1

/-- A construction or destruction of a `ScriptScopeGuard`. -/
inductive GuardEvent where
  | construct
  | destroy
deriving Repr, DecidableEq

/-- The value of `script_scope` after a sequence of guard constructions
and destructions starting from `script_scope = n`. -/
def runGuards (n : Int) : List GuardEvent → Int
  | [] => n
  | .construct :: rest => runGuards (scriptScopeGuardCtor n) rest
  | .destroy :: rest => runGuards (scriptScopeGuardDtor n) rest

/-- A guard-event sequence is properly nested when no prefix destroys more
guards than it constructed (every destructor matches a live guard). -/
def properlyNested (evs : List GuardEvent) : Prop :=
  ∀ k : Nat, ((evs.take k).count GuardEvent.destroy : Int)
    ≤ (evs.take k).count GuardEvent.construct

/-- The guard-nesting depth after a properly nested event sequence:
guards constructed and not yet destroyed. -/
def guardDepth (evs : List GuardEvent) : Int :=
  (evs.count GuardEvent.construct : Int) - evs.count GuardEvent.destroy

/-- Whether the key `(rid, name)` has a pending tracked query. -/
def isPending (k : QueryKey) (s : ManagerState) : Bool :=
  s.pending_queries.any (fun q => decide (q.key = k))

/-- How many times the key has been resolved (callback invocations). -/
def resolCount (k : QueryKey) (s : ManagerState) : Nat :=
  (s.resolved.filter (fun r => decide (r.1 = k))).length

theorem assocFind_mem {β : Type} (k : String) :
    ∀ {l : List (String × β)} {v : β}, assocFind k l = some v → (k, v) ∈ l
  | [], v => by simp [assocFind]
  | (a, b) :: rest, v => by
    by_cases h : a = k
    · subst h
      rw [assocFind, if_pos rfl]
      intro hv
      cases hv
      exact List.mem_cons_self _ _
    · rw [assocFind, if_neg h]
      intro hv
      exact List.mem_cons_of_mem _ (assocFind_mem k hv)

theorem assocFind_assocErase_self {β : Type} (k : String) :
    ∀ l : List (String × β), assocFind k (assocErase k l) = none
  | [] => rfl
  | (a, b) :: rest => by
    by_cases h : a = k
    · rw [assocErase, if_pos h]
      exact assocFind_assocErase_self k rest
    · rw [assocErase, if_neg h, assocFind, if_neg h]
      exact assocFind_assocErase_self k rest

theorem assocFind_setBuffer_self (stream : String) (b : LogBuffer) :
    ∀ l : List (String × LogBuffer), assocFind stream (setBuffer stream b l) = some b
  | [] => by simp [setBuffer, assocFind]
  | (a, b') :: rest => by
    by_cases h : a = stream
    · rw [setBuffer, if_pos h, assocFind, if_pos h]
    · rw [setBuffer, if_neg h, assocFind, if_neg h]
      exact assocFind_setBuffer_self stream b rest

theorem mem_setBuffer (stream : String) (b : LogBuffer) :
    ∀ {l : List (String × LogBuffer)} {p : String × LogBuffer},
      p ∈ setBuffer stream b l → p = (stream, b) ∨ p ∈ l
  | [], p => by
    rw [setBuffer]
    intro hp
    left
    simpa using hp
  | (a, b') :: rest, p => by
    by_cases h : a = stream
    · rw [setBuffer, if_pos h]
      intro hp
      rcases List.mem_cons.mp hp with hh | hh
      · left
        rw [hh, h]
      · right
        exact List.mem_cons_of_mem _ hh
    · rw [setBuffer, if_neg h]
      intro hp
      rcases List.mem_cons.mp hp with hh | hh
      · right
        rw [hh]
        exact List.mem_cons_self _ _
      · rcases mem_setBuffer stream b hh with hh' | hh'
        · left
          exact hh'
        · right
          exact List.mem_cons_of_mem _ hh'

theorem sum_lengths_appendToTopic (t : Topic) (m : LogMsg) :
    ∀ l : List (Topic × List LogMsg),
      ((appendToTopic t m l).map (fun p => p.2.length)).sum
        = (l.map (fun p => p.2.length)).sum + 1
  | [] => by simp [appendToTopic]
  | (a, ms) :: rest => by
    by_cases h : a = t
    · rw [appendToTopic, if_pos h]
      simp [Nat.add_assoc, Nat.add_comm 1]
    · rw [appendToTopic, if_neg h]
      simp only [List.map_cons, List.sum_cons, sum_lengths_appendToTopic t m rest]
      omega

theorem flushOut_total (bs : Nat) :
    ∀ msgs : List (Topic × List LogMsg),
      ((flushOut bs msgs).map (fun p => p.2.length)).sum
        = (msgs.map (fun p => p.2.length)).sum
  | [] => by simp [flushOut]
  | (a, ms) :: rest => by
    simp only [flushOut, List.flatMap_cons, List.map_append, List.sum_append,
      List.map_map]
    have h1 : (((chunksOf bs ms).map (fun c => ((a, c) : Topic × List LogMsg))).map
        (fun p => p.2.length)).sum = ms.length := by
      rw [List.map_map]
      simpa [Function.comp] using chunksOf_sum_length bs ms
    have h2 := flushOut_total bs rest
    simp only [flushOut, List.map_map, List.map_cons, List.sum_cons] at h1 h2 ⊢
    omega

theorem flushOut_mem_length_le (bs : Nat) (hbs : 0 < bs)
    (msgs : List (Topic × List LogMsg)) (batch : Topic × List LogMsg)
    (hb : batch ∈ flushOut bs msgs) : batch.2.length ≤ bs := by
  rcases List.mem_flatMap.mp hb with ⟨p, _, hbp⟩
  rcases List.mem_map.mp hbp with ⟨c, hc, rfl⟩
  exact chunksOf_length_le bs hbs p.2 c hc

/-- The shape of `log_buffers` along a run of writes for one stream:
either no buffer yet, or exactly that stream's buffer. -/
def singleStreamState (stream : String) (s : ManagerState) : Prop :=
  s.log_buffers = [] ∨ s.log_buffers = [(stream, getBuffer s stream)]

/-- A sequence of `PublishLogWrite` calls for one stream. -/
def writeOps (stream : String) (writes : List (Topic × LogMsg)) : List Op :=
  writes.map fun w => Op.publishLogWrite stream w.1 w.2

theorem setBuffer_of_single (stream : String) (x : LogBuffer) (s : ManagerState)
    (h : singleStreamState stream s) :
    setBuffer stream x s.log_buffers = [(stream, x)] := by
  rcases h with h | h
  · rw [h, setBuffer]
  · rw [h, setBuffer, if_pos rfl]

theorem publishLogWrite_step (stream : String) (t tw : Topic) (m : LogMsg)
    (s : ManagerState) (h1 : singleStreamState stream s)
    (h2 : keysNodup (getBuffer s stream).msgs) :
    singleStreamState stream (publishLogWrite s stream tw m) ∧
    keysNodup (getBuffer (publishLogWrite s stream tw m) stream).msgs ∧
    (publishLogWrite s stream tw m).log_batch_size = s.log_batch_size ∧
    perTopic t (publishLogWrite s stream tw m).sent
        ++ perTopic t (getBuffer (publishLogWrite s stream tw m) stream).msgs
      = perTopic t s.sent ++ perTopic t (getBuffer s stream).msgs
        ++ (if tw = t then [m] else []) := by
  have happ : perTopic t (appendToTopic tw m (getBuffer s stream).msgs)
      = perTopic t (getBuffer s stream).msgs ++ (if tw = t then [m] else []) := by
    by_cases hw : tw = t
    · subst hw
      rw [if_pos rfl]
      exact perTopic_appendToTopic_same tw m _ h2
    · rw [if_neg hw, List.append_nil]
      exact perTopic_appendToTopic_other t tw m hw _
  by_cases hcase :
      s.log_batch_size ≤ (getBuffer s stream).message_count + 1
  · have hrun : publishLogWrite s stream tw m =
        { s with
          log_buffers := setBuffer stream LogBuffer.empty s.log_buffers,
          sent := s.sent
            ++ flushOut s.log_batch_size
                (appendToTopic tw m (getBuffer s stream).msgs) } := by
      rw [publishLogWrite]
      simp only [if_pos hcase]
    rw [hrun]
    have hbufs : setBuffer stream LogBuffer.empty s.log_buffers
        = [(stream, LogBuffer.empty)] := setBuffer_of_single stream _ s h1
    have hget : getBuffer
        { s with
          log_buffers := setBuffer stream LogBuffer.empty s.log_buffers,
          sent := s.sent
            ++ flushOut s.log_batch_size
                (appendToTopic tw m (getBuffer s stream).msgs) } stream
        = LogBuffer.empty := by
      simp [getBuffer, hbufs, assocFind]
    refine ⟨?_, ?_, rfl, ?_⟩
    · right
      rw [hget]
      exact hbufs
    · rw [hget]
      exact List.nodup_nil
    · rw [hget]
      have hnil : perTopic t LogBuffer.empty.msgs = [] := rfl
      rw [hnil, List.append_nil, perTopic_append, perTopic_flushOut, happ,
        List.append_assoc]
  · have hrun : publishLogWrite s stream tw m =
        { s with
          log_buffers := setBuffer stream
            ⟨appendToTopic tw m (getBuffer s stream).msgs,
              (getBuffer s stream).message_count + 1⟩ s.log_buffers } := by
      rw [publishLogWrite]
      simp only [if_neg hcase]
    rw [hrun]
    have hbufs : setBuffer stream
        (⟨appendToTopic tw m (getBuffer s stream).msgs,
          (getBuffer s stream).message_count + 1⟩ : LogBuffer) s.log_buffers
        = [(stream, ⟨appendToTopic tw m (getBuffer s stream).msgs,
            (getBuffer s stream).message_count + 1⟩)] :=
      setBuffer_of_single stream _ s h1
    have hget : getBuffer
        { s with
          log_buffers := setBuffer stream
            ⟨appendToTopic tw m (getBuffer s stream).msgs,
              (getBuffer s stream).message_count + 1⟩ s.log_buffers } stream
        = ⟨appendToTopic tw m (getBuffer s stream).msgs,
            (getBuffer s stream).message_count + 1⟩ := by
      simp only [getBuffer, assocFind_setBuffer_self, Option.getD_some]
    refine ⟨?_, ?_, rfl, ?_⟩
    · right
      rw [hget]
      exact hbufs
    · rw [hget]
      exact keysNodup_appendToTopic tw m _ h2
    · rw [hget]
      show perTopic t s.sent
          ++ perTopic t (appendToTopic tw m (getBuffer s stream).msgs) = _
      rw [happ, List.append_assoc]

theorem publishLogWrite_run (stream : String) (t : Topic) :
    ∀ (writes : List (Topic × LogMsg)) (s : ManagerState),
      singleStreamState stream s → keysNodup (getBuffer s stream).msgs →
      singleStreamState stream (runOps s (writeOps stream writes)) ∧
      keysNodup (getBuffer (runOps s (writeOps stream writes)) stream).msgs ∧
      (runOps s (writeOps stream writes)).log_batch_size = s.log_batch_size ∧
      perTopic t (runOps s (writeOps stream writes)).sent
          ++ perTopic t (getBuffer (runOps s (writeOps stream writes)) stream).msgs
        = perTopic t s.sent ++ perTopic t (getBuffer s stream).msgs
          ++ (writes.filter (fun w => decide (w.1 = t))).map (fun w => w.2)
  | [], s, h1, h2 => by
    refine ⟨h1, h2, rfl, ?_⟩
    simp [writeOps, runOps]
  | w :: ws, s, h1, h2 => by
    have hstep := publishLogWrite_step stream t w.1 w.2 s h1 h2
    have hrec := publishLogWrite_run stream t ws
      (publishLogWrite s stream w.1 w.2) hstep.1 hstep.2.1
    have hops : runOps s (writeOps stream (w :: ws))
        = runOps (publishLogWrite s stream w.1 w.2) (writeOps stream ws) := rfl
    rw [hops]
    refine ⟨hrec.1, hrec.2.1, hrec.2.2.1.trans hstep.2.2.1, ?_⟩
    rw [hrec.2.2.2, hstep.2.2.2]
    by_cases hw : w.1 = t
    · simp [List.filter_cons, hw]
    · simp [List.filter_cons, hw]

/-- C1: for every sequence of `PublishLogWrite` calls for one stream, a
subsequent flush (`FlushLogBuffers`, together with any eager batch flushes
along the way) hands the Typed Message Channel, for each destination
topic, exactly the messages appended to that topic in exactly their
append order — never reordered, never merged with another topic. -/
theorem publishLogWrite_flush_order (bs : Nat) (stream : String)
    (writes : List (Topic × LogMsg)) (t : Topic) :
    perTopic t ((flushLogBuffers
        (runOps (initState bs) (writeOps stream writes))).1.sent)
      = (writes.filter (fun w => decide (w.1 = t))).map (fun w => w.2) := by
  have h := publishLogWrite_run stream t writes (initState bs) (Or.inl rfl)
    (by simp [getBuffer, initState, assocFind, LogBuffer.empty, keysNodup])
  have hinit1 : perTopic t (initState bs).sent = [] := rfl
  have hinit2 : perTopic t (getBuffer (initState bs) stream).msgs = [] := rfl
  have h4 := h.2.2.2
  rw [hinit1, hinit2] at h4
  simp only [List.nil_append] at h4
  rcases h.1 with hbuf | hbuf
  · have hsent : (flushLogBuffers
        (runOps (initState bs) (writeOps stream writes))).1.sent
        = (runOps (initState bs) (writeOps stream writes)).sent := by
      rw [flushLogBuffers]
      simp [hbuf]
    rw [hsent]
    have hget : getBuffer (runOps (initState bs) (writeOps stream writes)) stream
        = LogBuffer.empty := by
      simp [getBuffer, hbuf, assocFind]
    rw [hget] at h4
    have hnil : perTopic t LogBuffer.empty.msgs = [] := rfl
    rw [hnil, List.append_nil] at h4
    exact h4
  · have hsent : (flushLogBuffers
        (runOps (initState bs) (writeOps stream writes))).1.sent
        = (runOps (initState bs) (writeOps stream writes)).sent
          ++ flushOut (runOps (initState bs) (writeOps stream writes)).log_batch_size
              (getBuffer (runOps (initState bs) (writeOps stream writes)) stream).msgs := by
      rw [flushLogBuffers]
      simp [hbuf, LogBuffer.Flush]
    rw [hsent, perTopic_append, perTopic_flushOut]
    exact h4

theorem flushTotal_aux (bs : Nat) :
    ∀ l : List (String × LogBuffer),
      (((l.map (fun p => flushOut bs p.2.msgs)).flatten).map
          (fun b => b.2.length)).sum
        = (l.map (fun p => (p.2.msgs.map (fun q => q.2.length)).sum)).sum
  | [] => by simp
  | (a, b) :: rest => by
    simp only [List.map_cons, List.flatten_cons, List.map_append,
      List.sum_append, List.sum_cons]
    rw [flushOut_total bs b.msgs, flushTotal_aux bs rest]

/-- C6: `FlushLogBuffers` hands every buffer to the Typed Message Channel
in batches no larger than the configured batch size and returns the total
number of messages sent; each buffer is flushed whole (for every topic,
exactly the buffered messages of that topic), and the buffer's contents
and its running count are cleared together. -/
theorem flushLogBuffers_spec (s : ManagerState)
    (hbs : 0 < s.log_batch_size)
    (hwf : ∀ p ∈ s.log_buffers,
      p.2.message_count = (p.2.msgs.map (fun q => q.2.length)).sum) :
    ((flushLogBuffers s).1.sent = s.sent
        ++ (s.log_buffers.map
              (fun p => (LogBuffer.Flush p.2 s.log_batch_size).1)).flatten) ∧
    (∀ batch ∈ (s.log_buffers.map
        (fun p => (LogBuffer.Flush p.2 s.log_batch_size).1)).flatten,
      batch.2.length ≤ s.log_batch_size) ∧
    ((flushLogBuffers s).2
      = (((s.log_buffers.map
            (fun p => (LogBuffer.Flush p.2 s.log_batch_size).1)).flatten).map
              (fun b => b.2.length)).sum) ∧
    (∀ p ∈ (flushLogBuffers s).1.log_buffers,
      p.2.msgs = [] ∧ p.2.message_count = 0) ∧
    (∀ p ∈ s.log_buffers, ∀ t,
      perTopic t (LogBuffer.Flush p.2 s.log_batch_size).1
        = perTopic t p.2.msgs) := by
  refine ⟨rfl, ?_, ?_, ?_, ?_⟩
  · intro batch hb
    rcases List.mem_flatten.mp hb with ⟨l, hl, hbl⟩
    rcases List.mem_map.mp hl with ⟨p, _, rfl⟩
    exact flushOut_mem_length_le s.log_batch_size hbs p.2.msgs batch hbl
  · have h1 : (flushLogBuffers s).2
        = (s.log_buffers.map (fun p => p.2.message_count)).sum := by
      rw [flushLogBuffers]
      simp [LogBuffer.Flush]
    rw [h1]
    have h2 : s.log_buffers.map (fun p => p.2.message_count)
        = s.log_buffers.map (fun p => (p.2.msgs.map (fun q => q.2.length)).sum) :=
      List.map_congr_left hwf
    rw [h2]
    have h3 : s.log_buffers.map (fun p => (LogBuffer.Flush p.2 s.log_batch_size).1)
        = s.log_buffers.map (fun p => flushOut s.log_batch_size p.2.msgs) := rfl
    rw [h3, flushTotal_aux]
  · intro p hp
    rcases List.mem_map.mp hp with ⟨q, _, rfl⟩
    exact ⟨rfl, rfl⟩
  · intro p _ t
    exact perTopic_flushOut s.log_batch_size t p.2.msgs

theorem flushLogBuffers_spec_witness :
    (0 < (⟨[("conn", ⟨[("bro/log/conn", [10, 11])], 2⟩)],
        [], [], [], [], [], 0, 3⟩ : ManagerState).log_batch_size) ∧
    ((flushLogBuffers ⟨[("conn", ⟨[("bro/log/conn", [10, 11])], 2⟩)],
        [], [], [], [], [], 0, 3⟩).2
      = ((((⟨[("conn", ⟨[("bro/log/conn", [10, 11])], 2⟩)],
            [], [], [], [], [], 0, 3⟩ : ManagerState).log_buffers.map
            (fun p => (LogBuffer.Flush p.2 3).1)).flatten).map
              (fun b => b.2.length)).sum) :=
  ⟨by decide,
    (flushLogBuffers_spec
      ⟨[("conn", ⟨[("bro/log/conn", [10, 11])], 2⟩)], [], [], [], [], [], 0, 3⟩
      (by decide) (by decide)).2.2.1⟩

/-- The log-buffer counts agree with the buffered contents: every
buffer's `message_count` equals the total number of pending messages
summed across the topics of its `msgs` map. -/
def logCountInv (s : ManagerState) : Prop :=
  ∀ p ∈ s.log_buffers,
    p.2.message_count = (p.2.msgs.map (fun q => q.2.length)).sum

theorem logCountInv_getBuffer (s : ManagerState) (stream : String)
    (h : logCountInv s) :
    (getBuffer s stream).message_count
      = ((getBuffer s stream).msgs.map (fun q => q.2.length)).sum := by
  unfold getBuffer
  cases hfind : assocFind stream s.log_buffers with
  | none => simp [LogBuffer.empty]
  | some b =>
    simpa using h (stream, b) (assocFind_mem stream hfind)

theorem run_preserves_logCountInv (s : ManagerState) (op : Op)
    (h : logCountInv s) : logCountInv (run s op) := by
  cases op with
  | publishLogWrite stream t m =>
    show logCountInv (publishLogWrite s stream t m)
    rw [publishLogWrite]
    by_cases hcase : s.log_batch_size ≤ (getBuffer s stream).message_count + 1
    · simp only [if_pos hcase]
      intro p hp
      rcases mem_setBuffer stream _ hp with hh | hh
      · rw [hh]
        simp [LogBuffer.empty]
      · exact h p hh
    · simp only [if_neg hcase]
      intro p hp
      rcases mem_setBuffer stream _ hp with hh | hh
      · rw [hh]
        show (getBuffer s stream).message_count + 1 = _
        rw [sum_lengths_appendToTopic, logCountInv_getBuffer s stream h]
      · exact h p hh
  | publishLogCreate t m => exact h
  | flushLogBuffers =>
    intro p hp
    rcases List.mem_map.mp hp with ⟨q, _, rfl⟩
    rfl
  | makeMaster n =>
    show logCountInv (makeMaster s n).1
    rw [makeMaster]
    cases assocFind n s.data_stores <;> exact h
  | makeClone n r st mb =>
    show logCountInv (makeClone s n r st mb).1
    rw [makeClone]
    cases assocFind n s.data_stores <;> exact h
  | closeStore n =>
    show logCountInv (closeStore s n).1
    rw [closeStore]
    cases assocFind n s.data_stores <;> exact h
  | addForwardedStore n tb =>
    show logCountInv (addForwardedStore s n tb).1
    rw [addForwardedStore]
    cases assocFind n s.data_stores with
    | none => exact h
    | some _ => cases assocFind n s.forwarded_stores <;> exact h
  | trackStoreQuery n rid e =>
    show logCountInv (trackStoreQuery s n rid e).1
    rw [trackStoreQuery]
    by_cases hc : s.pending_queries.any (fun q => decide (q.key = (rid, n)))
    · simp only [if_pos hc]
      exact h
    · simp only [if_neg hc]
      exact h
  | processStoreResponse n rid =>
    show logCountInv (processStoreResponse s n rid)
    rw [processStoreResponse]
    by_cases hc : s.pending_queries.any (fun q => decide (q.key = (rid, n)))
    · simp only [if_pos hc]
      exact h
    · simp only [if_neg hc]
      exact h
  | timeoutSweep now => exact h

theorem runOps_preserves_logCountInv (ops : List Op) :
    ∀ s : ManagerState, logCountInv s → logCountInv (runOps s ops) := by
  induction ops with
  | nil => intro s h; exact h
  | cons op rest ih =>
    intro s h
    exact ih (run s op) (run_preserves_logCountInv s op h)

/-- C9: in every state the manager can reach, each stream's `LogBuffer`
keeps its `message_count` equal to the total number of pending messages
summed across all topics of its `msgs` map — the count lives at the
stream-level buffer, shared by that stream's destination topics, and
every operation (appends, creates, flushes, store operations) preserves
the equality. -/
theorem logBuffer_count_invariant (bs : Nat) (ops : List Op) :
    logCountInv (runOps (initState bs) ops) := by
  refine runOps_preserves_logCountInv ops (initState bs) ?_
  intro p hp
  simp [initState] at hp

/-- C7: a `PublishLogWrite` that brings the stream buffer's running count
up to the configured batch size flushes the buffer eagerly, without any
`FlushLogBuffers` call: the whole buffer is sent and cleared.  In
particular, with batch size 3, three writes for stream "conn" produce one
automatic send of exactly the 3 messages to topic "bro/log/conn". -/
theorem publishLogWrite_eager_flush (s : ManagerState) (stream : String)
    (t : Topic) (m : LogMsg)
    (h : s.log_batch_size ≤ (getBuffer s stream).message_count + 1) :
    (publishLogWrite s stream t m).sent
      = s.sent ++ flushOut s.log_batch_size
          (appendToTopic t m (getBuffer s stream).msgs) ∧
    getBuffer (publishLogWrite s stream t m) stream = LogBuffer.empty ∧
    (runOps (initState 3) (writeOps "conn"
        [(logTopic "conn", 10), (logTopic "conn", 11), (logTopic "conn", 12)])).sent
      = [("bro/log/conn", [10, 11, 12])] := by
  refine ⟨?_, ?_, ?_⟩
  · rw [publishLogWrite]
    simp only [if_pos h]
  · rw [publishLogWrite]
    simp only [if_pos h]
    simp only [getBuffer, assocFind_setBuffer_self, Option.getD_some]
  · simp [runOps, writeOps, run, publishLogWrite, getBuffer, assocFind,
      setBuffer, appendToTopic, flushOut, chunksOf, logTopic,
      LogBuffer.empty, initState]

theorem publishLogWrite_eager_flush_witness :
    ((⟨[("conn", ⟨[("bro/log/conn", [10, 11])], 2⟩)],
        [], [], [], [], [], 0, 3⟩ : ManagerState).log_batch_size
      ≤ (getBuffer ⟨[("conn", ⟨[("bro/log/conn", [10, 11])], 2⟩)],
          [], [], [], [], [], 0, 3⟩ "conn").message_count + 1) ∧
    ((publishLogWrite ⟨[("conn", ⟨[("bro/log/conn", [10, 11])], 2⟩)],
        [], [], [], [], [], 0, 3⟩ "conn" "bro/log/conn" 12).sent
      = (⟨[("conn", ⟨[("bro/log/conn", [10, 11])], 2⟩)],
          [], [], [], [], [], 0, 3⟩ : ManagerState).sent
        ++ flushOut 3 (appendToTopic "bro/log/conn" 12
            (getBuffer ⟨[("conn", ⟨[("bro/log/conn", [10, 11])], 2⟩)],
              [], [], [], [], [], 0, 3⟩ "conn").msgs)) :=
  ⟨by decide,
    (publishLogWrite_eager_flush
      ⟨[("conn", ⟨[("bro/log/conn", [10, 11])], 2⟩)], [], [], [], [], [], 0, 3⟩
      "conn" "bro/log/conn" 12 (by decide)).1⟩

theorem pending_filter_self {k : QueryKey} {l : List PendingQuery}
    (h : l.any (fun q => decide (q.key = k)) = false) :
    l.filter (fun q => !decide (q.key = k)) = l := by
  rw [List.any_eq_false] at h
  apply List.filter_eq_self.mpr
  intro q hq
  have hk := h q hq
  simp only [Bool.not_eq_true] at hk
  simp [hk]

theorem any_filter_false {k : QueryKey} {p : PendingQuery → Bool}
    {l : List PendingQuery}
    (h : l.any (fun q => decide (q.key = k)) = false) :
    (l.filter p).any (fun q => decide (q.key = k)) = false := by
  rw [List.any_eq_false] at h ⊢
  intro q hq
  exact h q (List.mem_of_mem_filter hq)

theorem sweep_map_no_key {k : QueryKey} {o : Outcome}
    {p : PendingQuery → Bool} {l : List PendingQuery}
    (h : l.any (fun q => decide (q.key = k)) = false) :
    ((l.filter p).map (fun q => (q.key, o))).filter
        (fun r => decide (r.1 = k)) = [] := by
  rw [List.any_eq_false] at h
  apply List.filter_eq_nil_iff.mpr
  intro r hr
  rcases List.mem_map.mp hr with ⟨q, hq, rfl⟩
  exact h q (List.mem_of_mem_filter hq)

/-- C2: a `(request_id, handle)` pair registered through `TrackStoreQuery`
is resolved exactly once — by a matching `ProcessStoreResponse` or by the
timeout sweep, never by both — and a `ProcessStoreResponse` for an unknown
or already-resolved pair is a complete no-op: no state change and no
error report. -/
theorem query_resolution_exactly_once (s : ManagerState) (name : String)
    (rid : Nat) (expiry now : ℚ)
    (hfresh : isPending (rid, name) s = false) :
    (trackStoreQuery s name rid expiry).2 = true ∧
    isPending (rid, name) (trackStoreQuery s name rid expiry).1 = true ∧
    resolCount (rid, name) (trackStoreQuery s name rid expiry).1
      = resolCount (rid, name) s ∧
    resolCount (rid, name)
        (processStoreResponse (trackStoreQuery s name rid expiry).1 name rid)
      = resolCount (rid, name) s + 1 ∧
    isPending (rid, name)
        (processStoreResponse (trackStoreQuery s name rid expiry).1 name rid)
      = false ∧
    processStoreResponse
        (processStoreResponse (trackStoreQuery s name rid expiry).1 name rid)
        name rid
      = processStoreResponse (trackStoreQuery s name rid expiry).1 name rid ∧
    resolCount (rid, name)
        (timeoutSweep
          (processStoreResponse (trackStoreQuery s name rid expiry).1 name rid)
          now)
      = resolCount (rid, name) s + 1 ∧
    (expiry < now →
      resolCount (rid, name)
          (timeoutSweep (trackStoreQuery s name rid expiry).1 now)
        = resolCount (rid, name) s + 1 ∧
      isPending (rid, name)
          (timeoutSweep (trackStoreQuery s name rid expiry).1 now) = false ∧
      processStoreResponse
          (timeoutSweep (trackStoreQuery s name rid expiry).1 now) name rid
        = timeoutSweep (trackStoreQuery s name rid expiry).1 now) ∧
    processStoreResponse s name rid = s := by
  unfold isPending at hfresh
  have hs1 : (trackStoreQuery s name rid expiry).1
      = { s with pending_queries :=
            s.pending_queries ++ [⟨(rid, name), expiry⟩] } := by
    rw [trackStoreQuery]
    simp [hfresh]
  have hret : (trackStoreQuery s name rid expiry).2 = true := by
    rw [trackStoreQuery]
    simp [hfresh]
  have hany1 : (s.pending_queries
        ++ [(⟨(rid, name), expiry⟩ : PendingQuery)]).any
      (fun q => decide (q.key = (rid, name))) = true := by
    simp [List.any_append]
  have hs2 : processStoreResponse (trackStoreQuery s name rid expiry).1 name rid
      = { s with resolved := s.resolved ++ [((rid, name), Outcome.response)] } := by
    rw [hs1, processStoreResponse]
    simp [hany1, List.filter_append, pending_filter_self hfresh]
  refine ⟨hret, ?_, ?_, ?_, ?_, ?_, ?_, ?_, ?_⟩
  · unfold isPending
    rw [hs1]
    exact hany1
  · rw [hs1]
    rfl
  · rw [hs2]
    simp [resolCount, List.filter_append]
  · unfold isPending
    rw [hs2]
    exact hfresh
  · rw [hs2, processStoreResponse]
    simp [hfresh]
  · rw [hs2, timeoutSweep]
    simp only [resolCount, List.filter_append, List.length_append]
    rw [sweep_map_no_key hfresh]
    simp
  · intro hnow
    have hdec : decide ((⟨(rid, name), expiry⟩ : PendingQuery).expiry < now)
        = true := decide_eq_true hnow
    have hs3 : timeoutSweep (trackStoreQuery s name rid expiry).1 now
        = { s with
            pending_queries :=
              s.pending_queries.filter (fun q => !decide (q.expiry < now)),
            resolved := s.resolved
              ++ ((s.pending_queries.filter
                    (fun q => decide (q.expiry < now))).map
                      (fun q => (q.key, Outcome.timeout))
                  ++ [((rid, name), Outcome.timeout)]) } := by
      rw [hs1, timeoutSweep]
      simp [List.filter_append, hdec, List.map_append]
    refine ⟨?_, ?_, ?_⟩
    · rw [hs3]
      simp only [resolCount, List.filter_append, List.length_append]
      rw [sweep_map_no_key hfresh]
      simp
    · unfold isPending
      rw [hs3]
      exact any_filter_false hfresh
    · rw [hs3, processStoreResponse]
      simp [any_filter_false hfresh]
  · rw [processStoreResponse]
    simp [hfresh]

theorem query_resolution_exactly_once_witness :
    (isPending (7, "db") (initState 3) = false) ∧
    ((trackStoreQuery (initState 3) "db" 7 5).2 = true ∧
     isPending (7, "db") (trackStoreQuery (initState 3) "db" 7 5).1 = true ∧
     resolCount (7, "db") (trackStoreQuery (initState 3) "db" 7 5).1
       = resolCount (7, "db") (initState 3) ∧
     resolCount (7, "db")
         (processStoreResponse (trackStoreQuery (initState 3) "db" 7 5).1 "db" 7)
       = resolCount (7, "db") (initState 3) + 1 ∧
     isPending (7, "db")
         (processStoreResponse (trackStoreQuery (initState 3) "db" 7 5).1 "db" 7)
       = false ∧
     processStoreResponse
         (processStoreResponse (trackStoreQuery (initState 3) "db" 7 5).1 "db" 7)
         "db" 7
       = processStoreResponse (trackStoreQuery (initState 3) "db" 7 5).1 "db" 7 ∧
     resolCount (7, "db")
         (timeoutSweep
           (processStoreResponse (trackStoreQuery (initState 3) "db" 7 5).1 "db" 7)
           9)
       = resolCount (7, "db") (initState 3) + 1 ∧
     ((5 : ℚ) < 9 →
       resolCount (7, "db")
           (timeoutSweep (trackStoreQuery (initState 3) "db" 7 5).1 9)
         = resolCount (7, "db") (initState 3) + 1 ∧
       isPending (7, "db")
           (timeoutSweep (trackStoreQuery (initState 3) "db" 7 5).1 9) = false ∧
       processStoreResponse
           (timeoutSweep (trackStoreQuery (initState 3) "db" 7 5).1 9) "db" 7
         = timeoutSweep (trackStoreQuery (initState 3) "db" 7 5).1 9) ∧
     processStoreResponse (initState 3) "db" 7 = initState 3) :=
  ⟨by decide,
    query_resolution_exactly_once (initState 3) "db" 7 5 9 (by decide)⟩

/-- C3: closing a registered store succeeds, removes the handle (a
subsequent lookup finds nothing), resolves each query pending under the
handle with a timeout outcome exactly once, and drops the forwarding
association; closing an unknown (or already closed) name returns false
and changes nothing. -/
theorem closeStore_spec (s : ManagerState) (name : String) :
    (lookupStore s name ≠ none →
      (closeStore s name).2 = true ∧
      lookupStore (closeStore s name).1 name = none ∧
      (closeStore s name).1.resolved
        = s.resolved ++ (s.pending_queries.filter
            (fun q => decide (q.key.2 = name))).map
              (fun q => (q.key, Outcome.timeout)) ∧
      (closeStore s name).1.pending_queries
        = s.pending_queries.filter (fun q => !decide (q.key.2 = name)) ∧
      assocFind name (closeStore s name).1.forwarded_stores = none) ∧
    (lookupStore s name = none → closeStore s name = (s, false)) := by
  unfold lookupStore
  cases hfind : assocFind name s.data_stores with
  | none =>
    refine ⟨fun hc => absurd rfl hc, fun _ => ?_⟩
    rw [closeStore, hfind]
  | some h =>
    refine ⟨fun _ => ?_, fun hc => by cases hc⟩
    have hclose : closeStore s name
        = ({ s with
            data_stores := assocErase name s.data_stores,
            forwarded_stores := assocErase name s.forwarded_stores,
            pending_queries :=
              s.pending_queries.filter (fun q => !decide (q.key.2 = name)),
            resolved := s.resolved
              ++ (s.pending_queries.filter
                    (fun q => decide (q.key.2 = name))).map
                      (fun q => (q.key, Outcome.timeout)) }, true) := by
      rw [closeStore, hfind]
    rw [hclose]
    exact ⟨rfl, assocFind_assocErase_self name s.data_stores, rfl, rfl,
      assocFind_assocErase_self name s.forwarded_stores⟩

theorem closeStore_spec_witness :
    (lookupStore ⟨[], [("db", ⟨"db", StoreRole.master⟩)], [("db", 4)],
        [⟨(7, "db"), 5⟩], [], [], 0, 3⟩ "db" ≠ none ∧
      ((closeStore ⟨[], [("db", ⟨"db", StoreRole.master⟩)], [("db", 4)],
          [⟨(7, "db"), 5⟩], [], [], 0, 3⟩ "db").2 = true ∧
        lookupStore (closeStore ⟨[], [("db", ⟨"db", StoreRole.master⟩)],
            [("db", 4)], [⟨(7, "db"), 5⟩], [], [], 0, 3⟩ "db").1 "db" = none ∧
        (closeStore ⟨[], [("db", ⟨"db", StoreRole.master⟩)], [("db", 4)],
            [⟨(7, "db"), 5⟩], [], [], 0, 3⟩ "db").1.resolved
          = ([] : List (QueryKey × Outcome))
            ++ (([⟨(7, "db"), 5⟩] : List PendingQuery).filter
                  (fun q => decide (q.key.2 = "db"))).map
                    (fun q => (q.key, Outcome.timeout)) ∧
        (closeStore ⟨[], [("db", ⟨"db", StoreRole.master⟩)], [("db", 4)],
            [⟨(7, "db"), 5⟩], [], [], 0, 3⟩ "db").1.pending_queries
          = ([⟨(7, "db"), 5⟩] : List PendingQuery).filter
              (fun q => !decide (q.key.2 = "db")) ∧
        assocFind "db" (closeStore ⟨[], [("db", ⟨"db", StoreRole.master⟩)],
            [("db", 4)], [⟨(7, "db"), 5⟩], [], [], 0, 3⟩ "db").1.forwarded_stores
          = none)) ∧
    (lookupStore (initState 3) "db" = none ∧ closeStore (initState 3) "db"
        = (initState 3, false)) :=
  ⟨⟨by decide,
    (closeStore_spec ⟨[], [("db", ⟨"db", StoreRole.master⟩)], [("db", 4)],
      [⟨(7, "db"), 5⟩], [], [], 0, 3⟩ "db").1 (by decide)⟩,
   ⟨by decide, (closeStore_spec (initState 3) "db").2 (by decide)⟩⟩

/-- C5: `MakeMaster` on an existing name fails (no handle) and leaves the
whole state unchanged apart from the error report, and `TrackStoreQuery`
on an already-pending `(request_id, handle)` key fails with a report and
does not overwrite the registered callback — no state change either. -/
theorem duplicate_registration_rejected (s : ManagerState) (name : String)
    (rid : Nat) (expiry : ℚ) :
    (lookupStore s name ≠ none →
      (makeMaster s name).2 = none ∧
      (makeMaster s name).1
        = { s with reported_errors := s.reported_errors + 1 }) ∧
    (isPending (rid, name) s = true →
      (trackStoreQuery s name rid expiry).2 = false ∧
      (trackStoreQuery s name rid expiry).1
        = { s with reported_errors := s.reported_errors + 1 }) := by
  constructor
  · unfold lookupStore
    cases hfind : assocFind name s.data_stores with
    | none => exact fun hc => absurd rfl hc
    | some h =>
      intro _
      constructor
      · rw [makeMaster, hfind]
      · rw [makeMaster, hfind]
  · intro hdup
    unfold isPending at hdup
    constructor
    · rw [trackStoreQuery]
      simp [hdup]
    · rw [trackStoreQuery]
      simp [hdup]

theorem duplicate_registration_rejected_witness :
    (lookupStore ⟨[], [("db", ⟨"db", StoreRole.master⟩)], [],
        [⟨(7, "db"), 5⟩], [], [], 0, 3⟩ "db" ≠ none ∧
      ((makeMaster ⟨[], [("db", ⟨"db", StoreRole.master⟩)], [],
          [⟨(7, "db"), 5⟩], [], [], 0, 3⟩ "db").2 = none ∧
        (makeMaster ⟨[], [("db", ⟨"db", StoreRole.master⟩)], [],
            [⟨(7, "db"), 5⟩], [], [], 0, 3⟩ "db").1
          = ⟨[], [("db", ⟨"db", StoreRole.master⟩)], [],
              [⟨(7, "db"), 5⟩], [], [], 1, 3⟩)) ∧
    (isPending (7, "db") ⟨[], [("db", ⟨"db", StoreRole.master⟩)], [],
        [⟨(7, "db"), 5⟩], [], [], 0, 3⟩ = true ∧
      ((trackStoreQuery ⟨[], [("db", ⟨"db", StoreRole.master⟩)], [],
          [⟨(7, "db"), 5⟩], [], [], 0, 3⟩ "db" 7 8).2 = false ∧
        (trackStoreQuery ⟨[], [("db", ⟨"db", StoreRole.master⟩)], [],
            [⟨(7, "db"), 5⟩], [], [], 0, 3⟩ "db" 7 8).1
          = ⟨[], [("db", ⟨"db", StoreRole.master⟩)], [],
              [⟨(7, "db"), 5⟩], [], [], 1, 3⟩)) :=
  ⟨⟨by decide,
      by
        have h := (duplicate_registration_rejected
          ⟨[], [("db", ⟨"db", StoreRole.master⟩)], [], [⟨(7, "db"), 5⟩],
            [], [], 0, 3⟩ "db" 7 8).1 (by decide)
        exact ⟨h.1, h.2⟩⟩,
    ⟨by decide,
      by
        have h := (duplicate_registration_rejected
          ⟨[], [("db", ⟨"db", StoreRole.master⟩)], [], [⟨(7, "db"), 5⟩],
            [], [], 0, 3⟩ "db" 7 8).2 (by decide)
        exact ⟨h.1, h.2⟩⟩⟩

theorem assocFind_append_none {β : Type} (k : String) (v : β) :
    ∀ {l : List (String × β)}, assocFind k l = none →
      assocFind k (l ++ [(k, v)]) = some v
  | [], _ => by simp [assocFind]
  | (a, b) :: rest, h => by
    by_cases ha : a = k
    · rw [assocFind, if_pos ha] at h
      cases h
    · rw [assocFind, if_neg ha] at h
      rw [List.cons_append, assocFind, if_neg ha]
      exact assocFind_append_none k v h

/-- C8: `AddForwardedStore` fails (false, only a report) when the store
name is not registered, and fails rather than replacing when an
association for the name already exists; a successful association leaves
at most one table forwarded per name — a second `AddForwardedStore` for
the same name fails and the first table remains. -/
theorem addForwardedStore_spec (s : ManagerState) (name : String)
    (table table2 : Nat) :
    (lookupStore s name = none →
      (addForwardedStore s name table).2 = false ∧
      (addForwardedStore s name table).1
        = { s with reported_errors := s.reported_errors + 1 }) ∧
    (lookupStore s name ≠ none → assocFind name s.forwarded_stores ≠ none →
      (addForwardedStore s name table).2 = false ∧
      (addForwardedStore s name table).1
        = { s with reported_errors := s.reported_errors + 1 }) ∧
    (lookupStore s name ≠ none → assocFind name s.forwarded_stores = none →
      (addForwardedStore s name table).2 = true ∧
      (addForwardedStore s name table).1.forwarded_stores
        = s.forwarded_stores ++ [(name, table)] ∧
      (addForwardedStore (addForwardedStore s name table).1 name table2).2
        = false ∧
      assocFind name (addForwardedStore
          (addForwardedStore s name table).1 name table2).1.forwarded_stores
        = some table) := by
  unfold lookupStore
  cases hfind : assocFind name s.data_stores with
  | none =>
    refine ⟨fun _ => ?_, fun hc => absurd rfl hc, fun hc => absurd rfl hc⟩
    constructor
    · rw [addForwardedStore, hfind]
    · rw [addForwardedStore, hfind]
  | some h =>
    refine ⟨?_, ?_, ?_⟩
    · intro hc
      cases hc
    · intro _ hfwd
      cases hf : assocFind name s.forwarded_stores with
      | none => exact absurd hf hfwd
      | some t0 =>
        constructor
        · rw [addForwardedStore, hfind, hf]
        · rw [addForwardedStore, hfind, hf]
    · intro _ hfwd
      have hadd : addForwardedStore s name table
          = ({ s with forwarded_stores :=
                s.forwarded_stores ++ [(name, table)] }, true) := by
        rw [addForwardedStore, hfind, hfwd]
      have hfind2 : assocFind name
          (addForwardedStore s name table).1.data_stores = some h := by
        rw [hadd]
        exact hfind
      have hfwd2 : assocFind name
          (addForwardedStore s name table).1.forwarded_stores = some table := by
        rw [hadd]
        exact assocFind_append_none name table hfwd
      have hadd2 : addForwardedStore (addForwardedStore s name table).1 name table2
          = ({ (addForwardedStore s name table).1 with reported_errors :=
                (addForwardedStore s name table).1.reported_errors + 1 },
              false) := by
        rw [addForwardedStore, hfind2, hfwd2]
      refine ⟨by rw [hadd], by rw [hadd], by rw [hadd2], ?_⟩
      rw [hadd2]
      exact hfwd2

theorem addForwardedStore_spec_witness :
    (lookupStore (initState 3) "db" = none ∧
      ((addForwardedStore (initState 3) "db" 4).2 = false ∧
        (addForwardedStore (initState 3) "db" 4).1
          = ⟨[], [], [], [], [], [], 1, 3⟩)) ∧
    (lookupStore ⟨[], [("db", ⟨"db", StoreRole.master⟩)], [], [], [], [],
        0, 3⟩ "db" ≠ none ∧
      assocFind "db" (⟨[], [("db", ⟨"db", StoreRole.master⟩)], [], [], [], [],
        0, 3⟩ : ManagerState).forwarded_stores = none ∧
      ((addForwardedStore ⟨[], [("db", ⟨"db", StoreRole.master⟩)], [], [],
          [], [], 0, 3⟩ "db" 4).2 = true ∧
        (addForwardedStore ⟨[], [("db", ⟨"db", StoreRole.master⟩)], [], [],
            [], [], 0, 3⟩ "db" 4).1.forwarded_stores
          = ([] : List (String × Nat)) ++ [("db", 4)] ∧
        (addForwardedStore (addForwardedStore
            ⟨[], [("db", ⟨"db", StoreRole.master⟩)], [], [], [], [], 0, 3⟩
            "db" 4).1 "db" 5).2 = false ∧
        assocFind "db" (addForwardedStore (addForwardedStore
            ⟨[], [("db", ⟨"db", StoreRole.master⟩)], [], [], [], [], 0, 3⟩
            "db" 4).1 "db" 5).1.forwarded_stores = some 4)) :=
  ⟨⟨by decide, (addForwardedStore_spec (initState 3) "db" 4 5).1 (by decide)⟩,
    ⟨by decide, by decide,
      (addForwardedStore_spec
        ⟨[], [("db", ⟨"db", StoreRole.master⟩)], [], [], [], [], 0, 3⟩
        "db" 4 5).2.2 (by decide) (by decide)⟩⟩

theorem cloneIssueMutation_nobuffer (c : CloneState)
    (h : c.mutation_buffer_interval ≤ 0) (now : ℚ) (m : Nat) :
    cloneIssueMutation c now m = c := by
  rw [cloneIssueMutation]
  cases c.disconnected_since with
  | none => rfl
  | some t0 => simp [h]

/-- C4: a clone created with `stale_interval < 0` never turns stale no
matter how long it stays disconnected; a clone created with
`mutation_buffer_interval ≤ 0` drops every mutation issued while
disconnected (nothing is buffered, so a reconnect replays nothing); and a
clone with positive `stale_interval`, disconnected since `t0`, is stale
once `stale_interval` seconds have passed, after which every read query
fails with a staleness error instead of returning data. -/
theorem makeClone_staleness_boundaries (c : CloneState) (now t0 : ℚ)
    (m : Nat) (muts : List (ℚ × Nat)) :
    (c.stale_interval < 0 → cloneIsStale c now = false) ∧
    (c.mutation_buffer_interval ≤ 0 → cloneIssueMutation c now m = c) ∧
    (c.mutation_buffer_interval ≤ 0 → c.buffered_mutations = [] →
      (cloneReconnect (muts.foldl
          (fun cc p => cloneIssueMutation cc p.1 p.2) c)).2 = []) ∧
    (0 < c.stale_interval → c.disconnected_since = some t0 →
      c.stale_interval ≤ now - t0 →
      cloneIsStale c now = true ∧ cloneReadQuery c now = .staleError) := by
  have hfold : c.mutation_buffer_interval ≤ 0 →
      ∀ (l : List (ℚ × Nat)),
        l.foldl (fun cc p => cloneIssueMutation cc p.1 p.2) c = c := by
    intro h l
    induction l with
    | nil => rfl
    | cons p rest ih =>
      rw [List.foldl_cons, cloneIssueMutation_nobuffer c h p.1 p.2]
      exact ih
  refine ⟨?_, ?_, ?_, ?_⟩
  · intro h
    rw [cloneIsStale]
    cases c.disconnected_since with
    | none => rfl
    | some t1 => simp [Rat.not_le.mpr h]
  · intro h
    exact cloneIssueMutation_nobuffer c h now m
  · intro h hempty
    rw [hfold h muts, cloneReconnect]
    exact hempty
  · intro hpos hdisc hpast
    have hstale : cloneIsStale c now = true := by
      rw [cloneIsStale, hdisc]
      simp [le_of_lt hpos, hpast]
    exact ⟨hstale, by rw [cloneReadQuery, hstale]; rfl⟩

theorem makeClone_staleness_boundaries_witness :
    ((⟨10, -1, 0, some 0, []⟩ : CloneState).stale_interval < 0 ∧
      cloneIsStale ⟨10, -1, 0, some 0, []⟩ 1000000 = false) ∧
    ((⟨10, -1, 0, some 0, []⟩ : CloneState).mutation_buffer_interval ≤ 0 ∧
      cloneIssueMutation ⟨10, -1, 0, some 0, []⟩ 3 5 = ⟨10, -1, 0, some 0, []⟩) ∧
    ((cloneReconnect ([((1 : ℚ), 5), ((2 : ℚ), 6)].foldl
        (fun cc p => cloneIssueMutation cc p.1 p.2)
        (⟨10, -1, 0, some 0, []⟩ : CloneState))).2 = []) ∧
    (0 < (⟨10, 300, 120, some 0, []⟩ : CloneState).stale_interval ∧
      cloneIsStale ⟨10, 300, 120, some 0, []⟩ 300 = true ∧
      cloneReadQuery ⟨10, 300, 120, some 0, []⟩ 300 = .staleError) :=
  ⟨⟨by decide,
      (makeClone_staleness_boundaries ⟨10, -1, 0, some 0, []⟩ 1000000 0 5
        []).1 (by decide)⟩,
    ⟨by decide,
      (makeClone_staleness_boundaries ⟨10, -1, 0, some 0, []⟩ 3 0 5
        []).2.1 (by decide)⟩,
    (makeClone_staleness_boundaries ⟨10, -1, 0, some 0, []⟩ 3 0 5
      [((1 : ℚ), 5), ((2 : ℚ), 6)]).2.2.1 (by decide) rfl,
    ⟨by decide,
      (makeClone_staleness_boundaries ⟨10, 300, 120, some 0, []⟩ 300 0 5
        []).2.2.2 (by decide) rfl (by norm_num)⟩⟩

theorem runGuards_eq :
    ∀ (evs : List GuardEvent) (n : Int),
      runGuards n evs
        = n + (evs.count GuardEvent.construct : Int)
            - evs.count GuardEvent.destroy
  | [], n => by simp [runGuards]
  | .construct :: rest, n => by
    rw [runGuards, runGuards_eq rest (scriptScopeGuardCtor n)]
    simp [scriptScopeGuardCtor, List.count_cons]
    ring
  | .destroy :: rest, n => by
    rw [runGuards, runGuards_eq rest (scriptScopeGuardDtor n)]
    simp [scriptScopeGuardDtor, List.count_cons]
    ring

/-- C10: constructing a `ScriptScopeGuard` adds exactly one to the static
`script_scope` counter and destroying it subtracts exactly one, so a
balanced construct/destroy pair returns the counter to its prior value,
and along a properly nested guard sequence starting from zero the counter
equals the current guard-nesting depth at every step. -/
theorem scriptScopeGuard_balance (n : Int) (evs : List GuardEvent) :
    scriptScopeGuardCtor n = n + 1 ∧
    scriptScopeGuardDtor n = n - 1 ∧
    scriptScopeGuardDtor (scriptScopeGuardCtor n) = n ∧
    runGuards n evs = n + guardDepth evs ∧
    (properlyNested evs →
      ∀ k : Nat, runGuards 0 (evs.take k) = guardDepth (evs.take k) ∧
        0 ≤ guardDepth (evs.take k)) := by
  refine ⟨rfl, rfl, ?_, ?_, ?_⟩
  · rw [scriptScopeGuardCtor, scriptScopeGuardDtor]
    ring
  · rw [runGuards_eq, guardDepth]
    ring
  · intro hnest k
    constructor
    · rw [runGuards_eq, guardDepth]
      ring
    · have h := hnest k
      rw [guardDepth]
      omega

theorem scriptScopeGuard_balance_witness :
    properlyNested [GuardEvent.construct, GuardEvent.destroy] ∧
    (runGuards 0 ([GuardEvent.construct, GuardEvent.destroy].take 2)
        = guardDepth ([GuardEvent.construct, GuardEvent.destroy].take 2) ∧
      0 ≤ guardDepth ([GuardEvent.construct, GuardEvent.destroy].take 2)) := by
  have hnest : properlyNested [GuardEvent.construct, GuardEvent.destroy] := by
    intro k
    match k with
    | 0 => decide
    | 1 => decide
    | k + 2 =>
      rw [List.take_of_length_le (by simp)]
      decide
  exact ⟨hnest,
    (scriptScopeGuard_balance 0
      [GuardEvent.construct, GuardEvent.destroy]).2.2.2.2 hnest 2⟩

end BrokerManager
